import Mathlib

/-!
Shallow embedding of `src/fbpcs/private_computation/service/mpc/mpc.py`.

The file models:
- `MPCParty` (from `mpc_instance.py`, values SERVER / CLIENT);
- `MPCService.convert_cmd_args_list` — the command assembler.  The external
  collaborator `self.mpc_game_svc.build_onedocker_args` is abstracted as a
  `Resolver` function returning `Except` (a Python exception or a
  `(package_name, cmd_args)` pair).  Game-argument maps, command payloads and
  resolver errors are opaque type parameters `G`, `C`, `E`.
  Besides the Python return value, the embedding also returns the trace of
  resolver invocations actually performed (index, argument map, server_ip),
  so that "before any resolver call" / "containers 0..i-1 already resolved"
  statements are expressible;
- `map_private_computation_role_to_mpc_party`;
- `MPCService.__init__` (as `MPCService.init`).

Python truthiness: `not game_args` is emptiness of the list, and
`not server_ips` on an `Optional[List[str]]` is true for `None` and for `[]`;
both are modelled explicitly.  `server_ips[i]` with `i` out of range raises
`IndexError`, modelled by `serverIpAt` returning `none`.
-/

namespace MPC

/-- MPCParty enum from `mpc_instance.py`: the role played by the MPC instance. -/
inductive MPCParty where
  | SERVER
  | CLIENT
deriving DecidableEq, Repr

/-- Errors raised by `convert_cmd_args_list` itself (the three `ValueError`s in
the Python source and the `IndexError` that `server_ips[i]` can raise), or an
error `e : E` propagated from the resolver. -/
inductive ConvertError (E : Type) where
  | missingGameArgs
  | missingServerIps
  | indexError
  | cantGetBinaryName
  | resolverError (e : E)
deriving DecidableEq, Repr

/-- One invocation of the resolver `self.mpc_game_svc.build_onedocker_args`:
the container index, the game-argument map passed, and the `server_ip`
argument it received. -/
structure ResolverCall (G : Type) where
  idx : Nat
  game_arg : G
  server_ip : Option String
deriving DecidableEq, Repr

/-- The external collaborator `MPCGameService.build_onedocker_args`
(game_name, mpc_party, server_ip, game_arg ↦ (package_name, cmd_args) or an
exception). -/
def Resolver (G C E : Type) : Type :=
  String → MPCParty → Option String → G → Except E (String × C)

/-- Python `server_ips[i] if server_ips is not None else None`: yields
`some server_ip` on success and `none` when `server_ips[i]` raises
`IndexError`. -/
def serverIpAt : Option (List String) → Nat → Option (Option String)
  | none, _ => some none
  | some l, i => if h : i < l.length then some (some (l.get ⟨i, h⟩)) else none

/-- Python truthiness of `server_ips : Optional[List[str]]`:
`not server_ips` is true iff the value is `None` or the empty list. -/
def falsyServerIps : Option (List String) → Bool
  | none => true
  | some l => l.isEmpty

variable {G C E : Type}

/-- The `for i in range(len(game_args))` loop of `convert_cmd_args_list`,
carrying the loop state (`binary_name`, `cmd_args_list`) and the trace of
resolver calls made so far.  `rest` is the suffix `game_args[i:]`. -/
def convertLoop (resolver : Resolver G C E) (game_name : String)
    (mpc_party : MPCParty) (server_ips : Option (List String)) :
    List G → Nat → Option String → List C → List (ResolverCall G) →
    Except (ConvertError E) (String × List C) × List (ResolverCall G)
  | [], _, binary_name, cmd_args_list, calls =>
    match binary_name with
    | none => (Except.error ConvertError.cantGetBinaryName, calls)
    | some bn => (Except.ok (bn, cmd_args_list), calls)
  | game_arg :: rest, i, binary_name, cmd_args_list, calls =>
    match serverIpAt server_ips i with
    | none => (Except.error ConvertError.indexError, calls)
    | some server_ip =>
      match resolver game_name mpc_party server_ip game_arg with
      | Except.error e =>
        (Except.error (ConvertError.resolverError e),
         calls ++ [⟨i, game_arg, server_ip⟩])
      | Except.ok (package_name, cmd_args) =>
        convertLoop resolver game_name mpc_party server_ips rest (i + 1)
          (match binary_name with
           | none => some package_name
           | some bn => some bn)
          (cmd_args_list ++ [cmd_args])
          (calls ++ [⟨i, game_arg, server_ip⟩])

/-- `MPCService.convert_cmd_args_list`.  First component: the Python result —
either an exception or the returned `(binary_name, cmd_args_list)` pair.
Second component: the trace of resolver invocations performed. -/
def convert_cmd_args_list (resolver : Resolver G C E) (game_name : String)
    (game_args : List G) (mpc_party : MPCParty)
    (server_ips : Option (List String)) :
    Except (ConvertError E) (String × List C) × List (ResolverCall G) :=
  if game_args.isEmpty then (Except.error ConvertError.missingGameArgs, [])
  else if mpc_party = MPCParty.CLIENT ∧ falsyServerIps server_ips then
    (Except.error ConvertError.missingServerIps, [])
  else
    convertLoop resolver game_name mpc_party server_ips game_args 0 none [] []

/-- A runtime value passed to `map_private_computation_role_to_mpc_party`:
either one of the two `PrivateComputationRole` members, or (Python being
dynamically typed) any other value, carried as its display string. -/
inductive RoleValue where
  | PUBLISHER
  | PARTNER
  | other (s : String)
deriving DecidableEq, Repr

/-- `map_private_computation_role_to_mpc_party` from `mpc.py`: PUBLISHER maps
to SERVER, PARTNER to CLIENT, anything else raises
`ValueError(f"No mpc party defined for {private_computation_role}")`. -/
def map_private_computation_role_to_mpc_party : RoleValue → Except String MPCParty
  | RoleValue.PUBLISHER => Except.ok MPCParty.SERVER
  | RoleValue.PARTNER => Except.ok MPCParty.CLIENT
  | RoleValue.other s => Except.error ("No mpc party defined for " ++ s)

/-- The state built by `MPCService.__init__`: the stored collaborators and the
`OneDockerService(self.container_svc, self.task_definition)` handle,
modelled as the pair handed off unchanged. -/
structure MPCServiceState (CS GS : Type) where
  container_svc : CS
  task_definition : Option String
  mpc_game_svc : GS
  onedocker_svc : CS × Option String
deriving DecidableEq, Repr

/-- `MPCService.__init__`: raises `ValueError` iff `container_svc is None or
mpc_game_svc is None`; `task_definition` is stored without any check.
`CS` and `GS` are the opaque collaborator types; `Option` models possibly
absent (`None`) arguments. -/
def MPCService.init {CS GS : Type} (container_svc : Option CS)
    (task_definition : Option String) (mpc_game_svc : Option GS) :
    Except String (MPCServiceState CS GS) :=
  match container_svc, mpc_game_svc with
  | none, _ => Except.error "Dependency is missing"
  | _, none => Except.error "Dependency is missing"
  | some cs, some gs => Except.ok ⟨cs, task_definition, gs, (cs, task_definition)⟩

/-- The command vectors produced by resolver outputs `cmdF` for the `n`
consecutive container indices starting at `i`. -/
def cmdsFrom (cmdF : Nat → C) : Nat → Nat → List C
  | _, 0 => []
  | i, n + 1 => cmdF i :: cmdsFrom cmdF (i + 1) n

/-- A concrete resolver for evaluating the embedding on closed inputs: always
succeeds, with the package name derived from the game argument and the
command recording the argument and the address received. -/
def rEcho : Resolver String String String := fun _gn _p ip g =>
  Except.ok ("pkg" ++ g, g ++ "@" ++ ip.getD "NONE")

/-- A concrete resolver whose package name differs between game arguments
"a" and "b". -/
def rTwoPkgs : Resolver String String String := fun _gn _p ip g =>
  Except.ok (if g = "a" then "pkgA" else "pkgB", g ++ "/" ++ ip.getD "NONE")

/-- A concrete resolver that fails with a schema error on game argument "b"
and succeeds like `rEcho` otherwise. -/
def rFailB : Resolver String String String := fun _gn _p ip g =>
  if g = "b" then Except.error "schema error"
  else Except.ok ("pkg" ++ g, g ++ "@" ++ ip.getD "NONE")

/-- Indices already accumulated in `acc` are untouched by later loop
iterations: positions below `acc.length` read through an `acc ++ [cmd]`
accumulator come from `acc`. -/
theorem getElem?_of_concat (acc : List C) (cmd : C) (cmds : List C)
    (hpre : ∀ k, k < acc.length + 1 → cmds[k]? = (acc ++ [cmd])[k]?) :
    ∀ k, k < acc.length → cmds[k]? = acc[k]? := by
  intro k hk
  rw [hpre k (by omega), List.getElem?_append_left hk]

/-- Assembles the per-index description of one loop step with the per-index
description of the remaining iterations. -/
theorem perIndexStep (resolver : Resolver G C E) (gn : String) (party : MPCParty)
    (ips : Option (List String)) (g0 : G) (rest : List G) (i : Nat)
    (acc : List C) (cmds : List C) (ip : Option String) (pkg : String) (cmd : C)
    (hip : serverIpAt ips i = some ip)
    (hres : resolver gn party ip g0 = Except.ok (pkg, cmd))
    (hpre : ∀ k, k < acc.length + 1 → cmds[k]? = (acc ++ [cmd])[k]?)
    (htail : ∀ j g, rest[j]? = some g →
      ∃ ip2 pkg2 c, serverIpAt ips (i + 1 + j) = some ip2
        ∧ resolver gn party ip2 g = Except.ok (pkg2, c)
        ∧ cmds[acc.length + 1 + j]? = some c) :
    ∀ j g, (g0 :: rest)[j]? = some g →
      ∃ ip2 pkg2 c, serverIpAt ips (i + j) = some ip2
        ∧ resolver gn party ip2 g = Except.ok (pkg2, c)
        ∧ cmds[acc.length + j]? = some c := by
  intro j g hj
  cases j with
  | zero =>
    rw [List.getElem?_cons_zero] at hj
    injection hj with hj
    subst hj
    refine ⟨ip, pkg, cmd, by simpa using hip, hres, ?_⟩
    rw [Nat.add_zero, hpre acc.length (by omega), List.getElem?_concat_length]
  | succ j =>
    rw [List.getElem?_cons_succ] at hj
    obtain ⟨ip2, pkg2, c, h1, h2, h3⟩ := htail j g hj
    refine ⟨ip2, pkg2, c, ?_, h2, ?_⟩
    · rw [show i + (j + 1) = i + 1 + j by omega]
      exact h1
    · rw [show acc.length + (j + 1) = acc.length + 1 + j by omega]
      exact h3

/-- Forward description of a run of `convertLoop` that starts with
`binary_name` already set to `t` and ends in the `Except.ok` branch: the
returned binary name is `t`, the output extends the accumulator by one entry
per remaining container, and every remaining container was resolved with the
address `serverIpAt` yields for its index. -/
theorem convertLoop_ok_some (resolver : Resolver G C E) (gn : String) (party : MPCParty)
    (ips : Option (List String)) (rest : List G) :
    ∀ (i : Nat) (t : String) (acc : List C) (calls : List (ResolverCall G))
      (bn : String) (cmds : List C),
      (convertLoop resolver gn party ips rest i (some t) acc calls).1 = Except.ok (bn, cmds) →
      bn = t
      ∧ cmds.length = acc.length + rest.length
      ∧ (∀ k, k < acc.length → cmds[k]? = acc[k]?)
      ∧ (∀ j g, rest[j]? = some g →
          ∃ ip pkg c, serverIpAt ips (i + j) = some ip
            ∧ resolver gn party ip g = Except.ok (pkg, c)
            ∧ cmds[acc.length + j]? = some c) := by
  induction rest with
  | nil =>
    intro i t acc calls bn cmds h
    simp only [convertLoop, Except.ok.injEq, Prod.mk.injEq] at h
    obtain ⟨hbn, hcmds⟩ := h
    subst hbn
    subst hcmds
    exact ⟨rfl, by simp, fun k _ => rfl, by simp⟩
  | cons g0 rest ih =>
    intro i t acc calls bn cmds h
    cases hip : serverIpAt ips i with
    | none => simp [convertLoop, hip] at h
    | some ip =>
      cases hres : resolver gn party ip g0 with
      | error e => simp [convertLoop, hip, hres] at h
      | ok pc =>
        obtain ⟨pkg, cmd⟩ := pc
        simp only [convertLoop, hip, hres] at h
        obtain ⟨hbn, hlen, hpre, htail⟩ :=
          ih (i + 1) t (acc ++ [cmd]) (calls ++ [⟨i, g0, ip⟩]) bn cmds h
        refine ⟨hbn, ?_, getElem?_of_concat acc cmd cmds (by simpa using hpre),
          perIndexStep resolver gn party ips g0 rest i acc cmds ip pkg cmd hip hres
            (by simpa using hpre) (by simpa using htail)⟩
        simp only [List.length_append, List.length_singleton] at hlen
        simp [hlen]
        omega

/-- Forward description of a full successful run of the loop as entered by
`convert_cmd_args_list` (index 0, no binary name, empty accumulators): the
output has one command per container, each container was resolved with the
address `serverIpAt` yields for its index, and the returned binary name is
the package name resolved for container 0. -/
theorem convertLoop_ok_entry (resolver : Resolver G C E) (gn : String) (party : MPCParty)
    (ips : Option (List String)) (game_args : List G) (bn : String) (cmds : List C)
    (h : (convertLoop resolver gn party ips game_args 0 none [] []).1 = Except.ok (bn, cmds)) :
    cmds.length = game_args.length
    ∧ (∀ j g, game_args[j]? = some g →
        ∃ ip pkg c, serverIpAt ips j = some ip
          ∧ resolver gn party ip g = Except.ok (pkg, c)
          ∧ cmds[j]? = some c)
    ∧ (∃ g ip c, game_args[0]? = some g ∧ serverIpAt ips 0 = some ip
        ∧ resolver gn party ip g = Except.ok (bn, c) ∧ cmds[0]? = some c) := by
  cases game_args with
  | nil => simp [convertLoop] at h
  | cons g0 rest =>
    cases hip : serverIpAt ips 0 with
    | none => simp [convertLoop, hip] at h
    | some ip =>
      cases hres : resolver gn party ip g0 with
      | error e => simp [convertLoop, hip, hres] at h
      | ok pc =>
        obtain ⟨pkg, cmd⟩ := pc
        simp only [convertLoop, hip, hres] at h
        obtain ⟨hbn, hlen, hpre, htail⟩ :=
          convertLoop_ok_some resolver gn party ips rest 1 pkg [cmd] [⟨0, g0, ip⟩] bn cmds h
        have hperindex := perIndexStep resolver gn party ips g0 rest 0 [] cmds ip pkg cmd
          hip hres (by simpa using hpre) (by simpa using htail)
        have hcmd0 : cmds[0]? = some cmd := by
          have := hpre 0 (by simp)
          simpa using this
        refine ⟨?_, ?_, ?_⟩
        · simp only [List.length_singleton] at hlen
          simp only [List.length_cons]
          omega
        · intro j g hj
          simpa using hperindex j g hj
        · subst hbn
          exact ⟨g0, ip, cmd, by simp, rfl, hres, hcmd0⟩

/-- Backward construction of a successful loop run with the binary name
already set: if every remaining container resolves (with the address
`serverIpAt` yields), the loop returns `t` together with the accumulator
extended by the resolved commands, in index order. -/
theorem convertLoop_ok_of_some (resolver : Resolver G C E) (gn : String) (party : MPCParty)
    (ips : Option (List String)) (ipF : Nat → Option String) (pkgF : Nat → String)
    (cmdF : Nat → C) (rest : List G) :
    ∀ (i : Nat) (t : String) (acc : List C) (calls : List (ResolverCall G)),
      (∀ j g, rest[j]? = some g →
        serverIpAt ips (i + j) = some (ipF (i + j))
        ∧ resolver gn party (ipF (i + j)) g = Except.ok (pkgF (i + j), cmdF (i + j))) →
      (convertLoop resolver gn party ips rest i (some t) acc calls).1
        = Except.ok (t, acc ++ cmdsFrom cmdF i rest.length) := by
  induction rest with
  | nil =>
    intro i t acc calls _
    simp [convertLoop, cmdsFrom]
  | cons g0 rest ih =>
    intro i t acc calls H
    obtain ⟨hip, hres⟩ := H 0 g0 (by simp)
    rw [Nat.add_zero] at hip hres
    have H2 : ∀ j g, rest[j]? = some g →
        serverIpAt ips (i + 1 + j) = some (ipF (i + 1 + j))
        ∧ resolver gn party (ipF (i + 1 + j)) g
            = Except.ok (pkgF (i + 1 + j), cmdF (i + 1 + j)) := by
      intro j g hj
      have := H (j + 1) g (by simpa using hj)
      rw [show i + (j + 1) = i + 1 + j by omega] at this
      exact this
    have hrec := ih (i + 1) t (acc ++ [cmdF i]) (calls ++ [⟨i, g0, ipF i⟩]) H2
    simp only [convertLoop, hip, hres, List.length_cons, cmdsFrom]
    rw [hrec]
    simp

/-- Backward construction of a successful loop run as entered by
`convert_cmd_args_list` on a non-empty `game_args`: if every container
resolves, the loop succeeds and returns the package name of container 0. -/
theorem convertLoop_ok_of_entry (resolver : Resolver G C E) (gn : String) (party : MPCParty)
    (ips : Option (List String)) (ipF : Nat → Option String) (pkgF : Nat → String)
    (cmdF : Nat → C) (g0 : G) (rest : List G)
    (H : ∀ j g, (g0 :: rest)[j]? = some g →
      serverIpAt ips j = some (ipF j)
      ∧ resolver gn party (ipF j) g = Except.ok (pkgF j, cmdF j)) :
    (convertLoop resolver gn party ips (g0 :: rest) 0 none [] []).1
      = Except.ok (pkgF 0, cmdsFrom cmdF 0 (rest.length + 1)) := by
  obtain ⟨hip, hres⟩ := H 0 g0 (by simp)
  have H2 : ∀ j g, rest[j]? = some g →
      serverIpAt ips (1 + j) = some (ipF (1 + j))
      ∧ resolver gn party (ipF (1 + j)) g = Except.ok (pkgF (1 + j), cmdF (1 + j)) := by
    intro j g hj
    have := H (j + 1) g (by simpa using hj)
    rw [show j + 1 = 1 + j by omega] at this
    exact this
  have hrec := convertLoop_ok_of_some resolver gn party ips ipF pkgF cmdF rest 1 (pkgF 0)
    [cmdF 0] [⟨0, g0, ipF 0⟩] H2
  simp only [convertLoop, hip, hres, cmdsFrom, Nat.zero_add, List.nil_append]
  rw [hrec]
  simp

/-- Successful end-to-end run of `convert_cmd_args_list` built from per-index
resolutions: validation passes, and no relation between the package names of
different containers is required — the first container's package name is
returned. -/
theorem convert_ok_of (resolver : Resolver G C E) (game_name : String) (game_args : List G)
    (mpc_party : MPCParty) (server_ips : Option (List String)) (ipF : Nat → Option String)
    (pkgF : Nat → String) (cmdF : Nat → C)
    (hne : game_args ≠ [])
    (hval : ¬(mpc_party = MPCParty.CLIENT ∧ falsyServerIps server_ips = true))
    (H : ∀ j g, game_args[j]? = some g →
      serverIpAt server_ips j = some (ipF j)
      ∧ resolver game_name mpc_party (ipF j) g = Except.ok (pkgF j, cmdF j)) :
    (convert_cmd_args_list resolver game_name game_args mpc_party server_ips).1
      = Except.ok (pkgF 0, cmdsFrom cmdF 0 game_args.length) := by
  cases game_args with
  | nil => exact absurd rfl hne
  | cons g0 rest =>
    have h1 : ((g0 :: rest) : List G).isEmpty = false := rfl
    simp only [convert_cmd_args_list, h1, Bool.false_eq_true, if_false, if_neg hval]
    exact convertLoop_ok_of_entry resolver game_name mpc_party server_ips ipF pkgF cmdF
      g0 rest H

/-- With `server_ips = None`, every resolver invocation recorded by the loop
receives no address. -/
theorem convertLoop_trace_no_ip (resolver : Resolver G C E) (gn : String) (party : MPCParty)
    (rest : List G) :
    ∀ (i : Nat) (b : Option String) (acc : List C) (calls : List (ResolverCall G)),
      (∀ e ∈ calls, e.server_ip = none) →
      ∀ e ∈ (convertLoop resolver gn party none rest i b acc calls).2, e.server_ip = none := by
  induction rest with
  | nil =>
    intro i b acc calls hc e he
    cases b <;> simp only [convertLoop] at he <;> exact hc e he
  | cons g0 rest ih =>
    intro i b acc calls hc e he
    have hc2 : ∀ e ∈ calls ++ [(⟨i, g0, none⟩ : ResolverCall G)], e.server_ip = none := by
      intro e2 he2
      rcases List.mem_append.mp he2 with h2 | h2
      · exact hc e2 h2
      · rw [List.mem_singleton] at h2
        rw [h2]
    cases hres : resolver gn party none g0 with
    | error er =>
      simp only [convertLoop, serverIpAt, hres] at he
      exact hc2 e he
    | ok pc =>
      obtain ⟨pkg, cmd⟩ := pc
      simp only [convertLoop, serverIpAt, hres] at he
      exact ih (i + 1) _ (acc ++ [cmd]) (calls ++ [⟨i, g0, none⟩]) hc2 e he

/-- The defensive post-loop `binary_name is None` branch: once `binary_name`
is set, or at least one iteration remains, the loop never returns the
`cantGetBinaryName` error. -/
theorem convertLoop_ne_cantGetBinaryName (resolver : Resolver G C E) (gn : String)
    (party : MPCParty) (ips : Option (List String)) (rest : List G) :
    ∀ (i : Nat) (b : Option String) (acc : List C) (calls : List (ResolverCall G)),
      b ≠ none ∨ rest ≠ [] →
      (convertLoop resolver gn party ips rest i b acc calls).1
        ≠ Except.error ConvertError.cantGetBinaryName := by
  induction rest with
  | nil =>
    intro i b acc calls hb
    rcases hb with hb | hb
    · cases b with
      | none => exact absurd rfl hb
      | some t => simp [convertLoop]
    · exact absurd rfl hb
  | cons g0 rest ih =>
    intro i b acc calls _
    cases hip : serverIpAt ips i with
    | none => simp [convertLoop, hip]
    | some ip =>
      cases hres : resolver gn party ip g0 with
      | error e => simp [convertLoop, hip, hres]
      | ok pc =>
        obtain ⟨pkg, cmd⟩ := pc
        simp only [convertLoop, hip, hres]
        apply ih
        left
        cases b <;> simp

/-- When `server_ips = some l` runs out before `game_args` does, the loop
calls the resolver once per index from `i` up to `l.length - 1` and then
stops with the `IndexError` of `server_ips[l.length]`, producing no result. -/
theorem convertLoop_indexError (resolver : Resolver G C E) (gn : String) (party : MPCParty)
    (l : List String) (rest : List G) :
    ∀ (i : Nat) (b : Option String) (acc : List C) (calls : List (ResolverCall G)),
      i ≤ l.length → l.length < i + rest.length →
      (∀ j g v, rest[j]? = some g → l[i + j]? = some v →
        ∃ p c, resolver gn party (some v) g = Except.ok (p, c)) →
      (convertLoop resolver gn party (some l) rest i b acc calls).1
        = Except.error ConvertError.indexError
      ∧ (convertLoop resolver gn party (some l) rest i b acc calls).2.map ResolverCall.idx
        = calls.map ResolverCall.idx ++ List.range' i (l.length - i) := by
  induction rest with
  | nil =>
    intro i b acc calls hi hlen _
    simp only [List.length_nil, Nat.add_zero] at hlen
    omega
  | cons g0 rest ih =>
    intro i b acc calls hi hlen hres
    by_cases hil : i < l.length
    · have hli : l[i]? = some (l.get ⟨i, hil⟩) := List.getElem?_eq_getElem hil
      obtain ⟨p, c, hok⟩ := hres 0 g0 (l.get ⟨i, hil⟩) (by simp)
        (by simp only [Nat.add_zero]; exact hli)
      have hip : serverIpAt (some l) i = some (some (l.get ⟨i, hil⟩)) := by
        simp [serverIpAt, hil]
      have hres2 : ∀ j g v, rest[j]? = some g → l[i + 1 + j]? = some v →
          ∃ p2 c2, resolver gn party (some v) g = Except.ok (p2, c2) := by
        intro j g v hj hv
        refine hres (j + 1) g v (by simpa using hj) ?_
        rw [show i + (j + 1) = i + 1 + j by omega]
        exact hv
      have hrec := ih (i + 1)
        (match b with
         | none => some p
         | some bn => some bn)
        (acc ++ [c]) (calls ++ [⟨i, g0, some (l.get ⟨i, hil⟩)⟩])
        (by omega) (by simp only [List.length_cons] at hlen; omega) hres2
      simp only [convertLoop, hip, hok]
      refine ⟨hrec.1, ?_⟩
      rw [hrec.2]
      simp only [List.map_append, List.map_cons, List.map_nil, List.append_assoc,
        List.cons_append, List.nil_append]
      have hr : List.range' i (l.length - i) = i :: List.range' (i + 1) (l.length - (i + 1)) := by
        rw [show l.length - i = (l.length - (i + 1)) + 1 by omega]
        exact List.range'_succ i (l.length - (i + 1)) 1
      rw [hr]
    · have hieq : i = l.length := by omega
      have hip : serverIpAt (some l) i = none := by
        simp [serverIpAt, hil]
      simp only [convertLoop, hip]
      refine ⟨by trivial, ?_⟩
      rw [show l.length - i = 0 by omega]
      simp

/-- When the resolver fails on relative index `k` (all earlier indices
resolving), the loop stops with the resolver's own error, after exactly one
recorded call per index from `i` to `i + k`. -/
theorem convertLoop_resolverError (resolver : Resolver G C E) (gn : String) (party : MPCParty)
    (ips : Option (List String)) (e : E) (rest : List G) :
    ∀ (k i : Nat) (b : Option String) (acc : List C) (calls : List (ResolverCall G)),
      (∀ j g, rest[j]? = some g → j < k →
        ∃ ip p c, serverIpAt ips (i + j) = some ip
          ∧ resolver gn party ip g = Except.ok (p, c)) →
      (∀ g, rest[k]? = some g →
        ∃ ip, serverIpAt ips (i + k) = some ip
          ∧ resolver gn party ip g = Except.error e) →
      k < rest.length →
      (convertLoop resolver gn party ips rest i b acc calls).1
        = Except.error (ConvertError.resolverError e)
      ∧ (convertLoop resolver gn party ips rest i b acc calls).2.map ResolverCall.idx
        = calls.map ResolverCall.idx ++ List.range' i (k + 1) := by
  induction rest with
  | nil =>
    intro k i b acc calls _ _ hk
    simp at hk
  | cons g0 rest ih =>
    intro k i b acc calls hpre hbad hk
    cases k with
    | zero =>
      obtain ⟨ip, hip, hres⟩ := hbad g0 (by simp)
      rw [Nat.add_zero] at hip
      simp only [convertLoop, hip, hres]
      refine ⟨by trivial, ?_⟩
      simp [List.range'_succ]
    | succ k =>
      obtain ⟨ip, p, c, hip, hres⟩ := hpre 0 g0 (by simp) (Nat.succ_pos k)
      rw [Nat.add_zero] at hip
      have hpre2 : ∀ j g, rest[j]? = some g → j < k →
          ∃ ip2 p2 c2, serverIpAt ips (i + 1 + j) = some ip2
            ∧ resolver gn party ip2 g = Except.ok (p2, c2) := by
        intro j g hj hjk
        have := hpre (j + 1) g (by simpa using hj) (by omega)
        rw [show i + (j + 1) = i + 1 + j by omega] at this
        exact this
      have hbad2 : ∀ g, rest[k]? = some g →
          ∃ ip2, serverIpAt ips (i + 1 + k) = some ip2
            ∧ resolver gn party ip2 g = Except.error e := by
        intro g hg
        have := hbad g (by simpa using hg)
        rw [show i + (k + 1) = i + 1 + k by omega] at this
        exact this
      have hrec := ih k (i + 1)
        (match b with
         | none => some p
         | some bn => some bn)
        (acc ++ [c]) (calls ++ [⟨i, g0, ip⟩]) hpre2 hbad2
        (by simpa using Nat.lt_of_succ_lt_succ hk)
      simp only [convertLoop, hip, hres]
      refine ⟨hrec.1, ?_⟩
      rw [hrec.2]
      simp only [List.map_append, List.map_cons, List.map_nil, List.append_assoc,
        List.cons_append, List.nil_append]
      rw [List.range'_succ i (k + 1) 1]

/-- C1: for every successful call to `convert_cmd_args_list` with a
`game_args` list of length N ≥ 1, the returned command list has exactly N
entries in input order, and for every index i the i-th command is the one
the resolver produced for `game_args[i]` with address `server_ips[i]` when
`server_ips` is present and no address otherwise. -/
theorem claim_C1 (resolver : Resolver G C E) (game_name : String) (game_args : List G)
    (mpc_party : MPCParty) (server_ips : Option (List String)) (bn : String) (cmds : List C)
    (h : (convert_cmd_args_list resolver game_name game_args mpc_party server_ips).1
      = Except.ok (bn, cmds)) :
    cmds.length = game_args.length
    ∧ ∀ (j : Nat) (g : G), game_args[j]? = some g →
        ∃ pkg c, cmds[j]? = some c
          ∧ ((server_ips = none
              ∧ resolver game_name mpc_party none g = Except.ok (pkg, c))
            ∨ (∃ l v, server_ips = some l ∧ l[j]? = some v
              ∧ resolver game_name mpc_party (some v) g = Except.ok (pkg, c))) := by
  unfold convert_cmd_args_list at h
  split at h
  · simp at h
  · split at h
    · simp at h
    · obtain ⟨hlen, hidx, _⟩ := convertLoop_ok_entry resolver game_name mpc_party server_ips
        game_args bn cmds h
      refine ⟨hlen, ?_⟩
      intro j g hj
      obtain ⟨ip, pkg, c, hip, hres, hc⟩ := hidx j g hj
      refine ⟨pkg, c, hc, ?_⟩
      cases server_ips with
      | none =>
        left
        simp only [serverIpAt, Option.some.injEq] at hip
        subst hip
        exact ⟨rfl, hres⟩
      | some l =>
        right
        simp only [serverIpAt] at hip
        by_cases hjl : j < l.length
        · rw [dif_pos hjl] at hip
          rw [Option.some.injEq] at hip
          subst hip
          exact ⟨l, l.get ⟨j, hjl⟩, rfl, List.getElem?_eq_getElem hjl, hres⟩
        · rw [dif_neg hjl] at hip
          cases hip

/-- C1 witness: a concrete successful Client-party call with two containers
and two addresses. -/
theorem claim_C1_witness :
    (["a@10.0.0.1", "b@10.0.0.2"] : List String).length
      = (["a", "b"] : List String).length
    ∧ ∀ (j : Nat) (g : String), (["a", "b"] : List String)[j]? = some g →
        ∃ pkg c, (["a@10.0.0.1", "b@10.0.0.2"] : List String)[j]? = some c
          ∧ ((some ["10.0.0.1", "10.0.0.2"] = none
              ∧ rEcho "lift" MPCParty.CLIENT none g = Except.ok (pkg, c))
            ∨ (∃ l v, (some ["10.0.0.1", "10.0.0.2"] : Option (List String)) = some l
              ∧ l[j]? = some v
              ∧ rEcho "lift" MPCParty.CLIENT (some v) g = Except.ok (pkg, c))) :=
  claim_C1 rEcho "lift" ["a", "b"] MPCParty.CLIENT (some ["10.0.0.1", "10.0.0.2"])
    "pkga" ["a@10.0.0.1", "b@10.0.0.2"] rfl

/-- C2: in every successful call the returned `binary_name` equals the
package name resolved for the first container; for later containers the
resolved package name is never compared against it — even when containers
resolve to different package names, the call succeeds and returns the first
container's package name. -/
theorem claim_C2 (resolver : Resolver G C E) (game_name : String) (game_args : List G)
    (mpc_party : MPCParty) (server_ips : Option (List String)) :
    (∀ bn cmds,
      (convert_cmd_args_list resolver game_name game_args mpc_party server_ips).1
        = Except.ok (bn, cmds) →
      ∃ g ip c, game_args[0]? = some g ∧ serverIpAt server_ips 0 = some ip
        ∧ resolver game_name mpc_party ip g = Except.ok (bn, c) ∧ cmds[0]? = some c)
    ∧ ∀ (ipF : Nat → Option String) (pkgF : Nat → String) (cmdF : Nat → C),
        game_args ≠ [] →
        ¬(mpc_party = MPCParty.CLIENT ∧ falsyServerIps server_ips = true) →
        (∀ j g, game_args[j]? = some g →
          serverIpAt server_ips j = some (ipF j)
          ∧ resolver game_name mpc_party (ipF j) g = Except.ok (pkgF j, cmdF j)) →
        (convert_cmd_args_list resolver game_name game_args mpc_party server_ips).1
          = Except.ok (pkgF 0, cmdsFrom cmdF 0 game_args.length) := by
  constructor
  · intro bn cmds h
    unfold convert_cmd_args_list at h
    split at h
    · simp at h
    · split at h
      · simp at h
      · exact (convertLoop_ok_entry resolver game_name mpc_party server_ips
          game_args bn cmds h).2.2
  · intro ipF pkgF cmdF hne hval H
    exact convert_ok_of resolver game_name game_args mpc_party server_ips ipF pkgF cmdF
      hne hval H

/-- C2 witness: a concrete call whose two containers resolve to different
package names ("pkgA" and "pkgB"); the call still succeeds and returns the
first container's package name. -/
theorem claim_C2_witness :
    (convert_cmd_args_list rTwoPkgs "lift" ["a", "b"] MPCParty.SERVER none).1
      = Except.ok ((fun j => if j = 0 then "pkgA" else "pkgB") 0,
          cmdsFrom (fun j => if j = 0 then "a/NONE" else "b/NONE") 0
            (["a", "b"] : List String).length)
    ∧ ∃ g ip c, (["a", "b"] : List String)[0]? = some g ∧ serverIpAt none 0 = some ip
        ∧ rTwoPkgs "lift" MPCParty.SERVER ip g = Except.ok ("pkgA", c)
        ∧ (["a/NONE", "b/NONE"] : List String)[0]? = some c := by
  constructor
  · refine (claim_C2 rTwoPkgs "lift" ["a", "b"] MPCParty.SERVER none).2
      (fun _ => none) (fun j => if j = 0 then "pkgA" else "pkgB")
      (fun j => if j = 0 then "a/NONE" else "b/NONE") (by simp) (by simp) ?_
    intro j g hj
    cases j with
    | zero =>
      rw [List.getElem?_cons_zero, Option.some.injEq] at hj
      subst hj
      exact ⟨rfl, rfl⟩
    | succ j =>
      cases j with
      | zero =>
        rw [List.getElem?_cons_succ, List.getElem?_cons_zero, Option.some.injEq] at hj
        subst hj
        exact ⟨rfl, rfl⟩
      | succ j => simp at hj
  · exact (claim_C2 rTwoPkgs "lift" ["a", "b"] MPCParty.SERVER none).1
      "pkgA" ["a/NONE", "b/NONE"] rfl

/-- C4: calling `convert_cmd_args_list` with an empty `game_args` list fails
with the missing-game_args `ValueError` regardless of party and `server_ips`,
with no resolver call made and no result returned. -/
theorem claim_C4 (resolver : Resolver G C E) (game_name : String) (mpc_party : MPCParty)
    (server_ips : Option (List String)) :
    convert_cmd_args_list resolver game_name ([] : List G) mpc_party server_ips
      = (Except.error ConvertError.missingGameArgs, []) := rfl

/-- C10: for every non-empty `game_args`, a Client-party call with an empty
(non-null) `server_ips` list is rejected with the same missing-server_ips
error as a null `server_ips`, before any resolver call: the implemented
check is Python truthiness, which rejects both `None` and `[]`. -/
theorem claim_C10 (resolver : Resolver G C E) (game_name : String) (game_args : List G)
    (hne : game_args ≠ []) :
    convert_cmd_args_list resolver game_name game_args MPCParty.CLIENT (some [])
      = (Except.error ConvertError.missingServerIps, [])
    ∧ convert_cmd_args_list resolver game_name game_args MPCParty.CLIENT none
      = (Except.error ConvertError.missingServerIps, []) := by
  cases game_args with
  | nil => exact absurd rfl hne
  | cons g0 rest => exact ⟨rfl, rfl⟩

/-- C10 witness: the concrete one-container Client-party call, with empty and
with null `server_ips`. -/
theorem claim_C10_witness :
    convert_cmd_args_list rEcho "lift" ["a"] MPCParty.CLIENT (some [])
      = (Except.error ConvertError.missingServerIps, [])
    ∧ convert_cmd_args_list rEcho "lift" ["a"] MPCParty.CLIENT none
      = (Except.error ConvertError.missingServerIps, []) :=
  claim_C10 rEcho "lift" ["a"] (by simp)

/-- C3 counterexample: with `party = CLIENT`, `server_ips = ["10.0.0.1"]`
(non-null, shorter than `game_args = ["a", "b"]`) and a resolver that always
succeeds, the call does not fail fast before any resolver call: the resolver
is invoked for container 0 first, and only then does `server_ips[1]` raise
`IndexError`. -/
theorem claim_C3_counterexample :
    convert_cmd_args_list rEcho "lift" ["a", "b"] MPCParty.CLIENT (some ["10.0.0.1"])
      = (Except.error ConvertError.indexError, [⟨0, "a", some "10.0.0.1"⟩]) := rfl

/-- C3 (amended): with `party = CLIENT` and `server_ips = some l` with
`l.length < game_args.length`, either `l` is empty and the call fails fast
with the missing-server_ips error before any resolver call, or `l` is
non-empty and the call invokes the resolver exactly once per index
`0 … l.length - 1` and then raises `IndexError` mid-loop; in both cases the
failure is signaled and no result is returned, so output is never silently
truncated. -/
theorem claim_C3 (resolver : Resolver G C E) (game_name : String) (game_args : List G)
    (l : List String) (hlen : l.length < game_args.length)
    (hres : ∀ (j : Nat) (g : G) (v : String), game_args[j]? = some g → l[j]? = some v →
      ∃ p c, resolver game_name MPCParty.CLIENT (some v) g = Except.ok (p, c)) :
    (l = [] →
      convert_cmd_args_list resolver game_name game_args MPCParty.CLIENT (some l)
        = (Except.error ConvertError.missingServerIps, []))
    ∧ (l ≠ [] →
      (convert_cmd_args_list resolver game_name game_args MPCParty.CLIENT (some l)).1
        = Except.error ConvertError.indexError
      ∧ (convert_cmd_args_list resolver game_name game_args MPCParty.CLIENT (some l)).2.map
          ResolverCall.idx = List.range l.length) := by
  have hne : game_args ≠ [] := by
    intro hempty
    rw [hempty] at hlen
    simp at hlen
  constructor
  · intro hl
    subst hl
    cases game_args with
    | nil => exact absurd rfl hne
    | cons g0 rest => rfl
  · intro hl
    have hfalsy : falsyServerIps (some l) = false := by
      cases l with
      | nil => exact absurd rfl hl
      | cons a l => rfl
    cases game_args with
    | nil => exact absurd rfl hne
    | cons g0 rest =>
      have h1 : ((g0 :: rest) : List G).isEmpty = false := rfl
      have hloop := convertLoop_indexError resolver game_name MPCParty.CLIENT l
        (g0 :: rest) 0 none [] [] (by omega)
        (by simp only [Nat.zero_add]; exact hlen)
        (by intro j g v hj hv; rw [Nat.zero_add] at hv; exact hres j g v hj hv)
      simp only [convert_cmd_args_list, h1, Bool.false_eq_true, if_false]
      rw [if_neg (by simp [hfalsy])]
      refine ⟨hloop.1, ?_⟩
      rw [hloop.2]
      simp [List.range_eq_range']

/-- C3 witness: the amended statement at the concrete inputs
`server_ips = some []` (fails fast) and `server_ips = some ["10.0.0.1"]`
(one resolver call, then `IndexError`). -/
theorem claim_C3_witness :
    convert_cmd_args_list rEcho "lift" ["a", "b"] MPCParty.CLIENT (some [])
      = (Except.error ConvertError.missingServerIps, [])
    ∧ (convert_cmd_args_list rEcho "lift" ["a", "b"] MPCParty.CLIENT (some ["10.0.0.1"])).1
      = Except.error ConvertError.indexError
    ∧ (convert_cmd_args_list rEcho "lift" ["a", "b"] MPCParty.CLIENT
        (some ["10.0.0.1"])).2.map ResolverCall.idx = List.range 1 := by
  refine ⟨?_, ?_⟩
  · exact (claim_C3 rEcho "lift" ["a", "b"] [] (by simp)
      (by intro j g v _ hv; simp at hv)).1 rfl
  · exact (claim_C3 rEcho "lift" ["a", "b"] ["10.0.0.1"] (by simp)
      (fun j g v _ _ => ⟨"pkg" ++ g, g ++ "@" ++ v, rfl⟩)).2 (by simp)

/-- C5: for every non-empty `game_args`, a Client-party call with
`server_ips = None` fails with the missing-server_ips error before any
per-container work, while a Server-party call with `server_ips = None`
succeeds whenever every resolver call succeeds, every resolver call
receiving no address. -/
theorem claim_C5 (resolver : Resolver G C E) (game_name : String) (game_args : List G)
    (hne : game_args ≠ []) :
    convert_cmd_args_list resolver game_name game_args MPCParty.CLIENT none
      = (Except.error ConvertError.missingServerIps, [])
    ∧ ∀ (pkgF : Nat → String) (cmdF : Nat → C),
        (∀ (j : Nat) (g : G), game_args[j]? = some g →
          resolver game_name MPCParty.SERVER none g = Except.ok (pkgF j, cmdF j)) →
        (convert_cmd_args_list resolver game_name game_args MPCParty.SERVER none).1
          = Except.ok (pkgF 0, cmdsFrom cmdF 0 game_args.length)
        ∧ ∀ e ∈ (convert_cmd_args_list resolver game_name game_args MPCParty.SERVER none).2,
            e.server_ip = none := by
  constructor
  · cases game_args with
    | nil => exact absurd rfl hne
    | cons g0 rest => rfl
  · intro pkgF cmdF H
    constructor
    · exact convert_ok_of resolver game_name game_args MPCParty.SERVER none (fun _ => none)
        pkgF cmdF hne (by simp) (fun j g hj => ⟨rfl, H j g hj⟩)
    · cases game_args with
      | nil => exact absurd rfl hne
      | cons g0 rest =>
        have h1 : ((g0 :: rest) : List G).isEmpty = false := rfl
        simp only [convert_cmd_args_list, h1, Bool.false_eq_true, if_false]
        rw [if_neg (by simp)]
        exact convertLoop_trace_no_ip resolver game_name MPCParty.SERVER (g0 :: rest)
          0 none [] [] (by simp)

/-- C5 witness: the concrete two-container calls of the no-address scenario
(Client with null `server_ips` fails; Server with null `server_ips` succeeds,
every recorded resolver call receiving no address). -/
theorem claim_C5_witness :
    convert_cmd_args_list rEcho "lift" ["a", "b"] MPCParty.CLIENT none
      = (Except.error ConvertError.missingServerIps, [])
    ∧ (convert_cmd_args_list rEcho "lift" ["a", "b"] MPCParty.SERVER none).1
      = Except.ok ((fun j => if j = 0 then "pkga" else "pkgb") 0,
          cmdsFrom (fun j => if j = 0 then "a@NONE" else "b@NONE") 0
            (["a", "b"] : List String).length)
    ∧ ∀ e ∈ (convert_cmd_args_list rEcho "lift" ["a", "b"] MPCParty.SERVER none).2,
        e.server_ip = none := by
  have h := claim_C5 rEcho "lift" ["a", "b"] (by simp)
  refine ⟨h.1, ?_⟩
  refine h.2 (fun j => if j = 0 then "pkga" else "pkgb")
    (fun j => if j = 0 then "a@NONE" else "b@NONE") ?_
  intro j g hj
  cases j with
  | zero =>
    rw [List.getElem?_cons_zero, Option.some.injEq] at hj
    subst hj
    rfl
  | succ j =>
    cases j with
    | zero =>
      rw [List.getElem?_cons_succ, List.getElem?_cons_zero, Option.some.injEq] at hj
      subst hj
      rfl
    | succ j => simp at hj

/-- C6: if the resolver raises an error `e` on container `k` while containers
`0 … k-1` resolve successfully, `convert_cmd_args_list` propagates `e`
immediately and unmodified, performs no retry (exactly one recorded call per
index `0 … k`), and returns no `(binary_name, commands)` result. -/
theorem claim_C6 (resolver : Resolver G C E) (game_name : String) (game_args : List G)
    (mpc_party : MPCParty) (server_ips : Option (List String)) (k : Nat) (e : E)
    (hval : ¬(mpc_party = MPCParty.CLIENT ∧ falsyServerIps server_ips = true))
    (hk : k < game_args.length)
    (hpre : ∀ (j : Nat) (g : G), game_args[j]? = some g → j < k →
      ∃ ip p c, serverIpAt server_ips j = some ip
        ∧ resolver game_name mpc_party ip g = Except.ok (p, c))
    (hbad : ∀ g, game_args[k]? = some g →
      ∃ ip, serverIpAt server_ips k = some ip
        ∧ resolver game_name mpc_party ip g = Except.error e) :
    (convert_cmd_args_list resolver game_name game_args mpc_party server_ips).1
      = Except.error (ConvertError.resolverError e)
    ∧ (convert_cmd_args_list resolver game_name game_args mpc_party server_ips).2.map
        ResolverCall.idx = List.range (k + 1) := by
  cases game_args with
  | nil => simp at hk
  | cons g0 rest =>
    have h1 : ((g0 :: rest) : List G).isEmpty = false := rfl
    simp only [convert_cmd_args_list, h1, Bool.false_eq_true, if_false, if_neg hval]
    have hloop := convertLoop_resolverError resolver game_name mpc_party server_ips e
      (g0 :: rest) k 0 none [] []
      (by intro j g hj hjk; simpa using hpre j g hj hjk)
      (by intro g hg; simpa using hbad g hg)
      hk
    refine ⟨hloop.1, ?_⟩
    rw [hloop.2]
    simp [List.range_eq_range']

/-- C6 witness: a concrete Server-party call whose second container's
resolution fails with a schema error after the first resolved. -/
theorem claim_C6_witness :
    (convert_cmd_args_list rFailB "lift" ["a", "b"] MPCParty.SERVER none).1
      = Except.error (ConvertError.resolverError "schema error")
    ∧ (convert_cmd_args_list rFailB "lift" ["a", "b"] MPCParty.SERVER none).2.map
        ResolverCall.idx = List.range 2 := by
  refine claim_C6 rFailB "lift" ["a", "b"] MPCParty.SERVER none 1 "schema error"
    (by simp) (by simp) ?_ ?_
  · intro j g hj hjk
    cases j with
    | zero =>
      rw [List.getElem?_cons_zero, Option.some.injEq] at hj
      subst hj
      exact ⟨none, "pkga", "a@NONE", rfl, rfl⟩
    | succ j => omega
  · intro g hg
    rw [List.getElem?_cons_succ, List.getElem?_cons_zero, Option.some.injEq] at hg
    subst hg
    exact ⟨none, rfl, rfl⟩

/-- C7: `map_private_computation_role_to_mpc_party` maps PUBLISHER to SERVER
and PARTNER to CLIENT, and any value outside the closed role set fails with
a `ValueError` whose message names the offending value. -/
theorem claim_C7 :
    map_private_computation_role_to_mpc_party RoleValue.PUBLISHER
      = Except.ok MPCParty.SERVER
    ∧ map_private_computation_role_to_mpc_party RoleValue.PARTNER
      = Except.ok MPCParty.CLIENT
    ∧ ∀ s, map_private_computation_role_to_mpc_party (RoleValue.other s)
        = Except.error ("No mpc party defined for " ++ s) :=
  ⟨rfl, rfl, fun _ => rfl⟩

/-- C8 counterexample: `MPCService.__init__` succeeds with an absent
(`None`) `task_definition` — the task-definition string is never validated,
contrary to the claim that its absence fails construction. -/
theorem claim_C8_counterexample :
    @MPCService.init Unit Unit (some ()) none (some ())
      = Except.ok ⟨(), none, (), ((), none)⟩ := rfl

/-- C8 (amended): at construction time the container-scheduling collaborator
handle and the game-service (resolver) handle are validated non-null, and
construction fails with the dependency `ValueError` if either of those two
is absent; the task-definition identifier string is not validated and is
stored and handed to the launcher component unchanged. -/
theorem claim_C8 {CS GS : Type} (container_svc : Option CS)
    (task_definition : Option String) (mpc_game_svc : Option GS) :
    ((container_svc = none ∨ mpc_game_svc = none) →
      MPCService.init container_svc task_definition mpc_game_svc
        = Except.error "Dependency is missing")
    ∧ ∀ cs gs, container_svc = some cs → mpc_game_svc = some gs →
        MPCService.init container_svc task_definition mpc_game_svc
          = Except.ok ⟨cs, task_definition, gs, (cs, task_definition)⟩ := by
  constructor
  · intro h
    rcases h with h | h
    · subst h
      cases mpc_game_svc <;> rfl
    · subst h
      cases container_svc <;> rfl
  · intro cs gs h1 h2
    subst h1
    subst h2
    rfl

/-- C8 witness: construction fails when the container service is absent and
succeeds, storing the task definition unchanged, when both collaborator
handles are present. -/
theorem claim_C8_witness :
    @MPCService.init Unit Unit none (some "task-def") (some ())
      = Except.error "Dependency is missing"
    ∧ @MPCService.init Unit Unit (some ()) (some "task-def") (some ())
      = Except.ok ⟨(), some "task-def", (), ((), some "task-def")⟩ :=
  ⟨(claim_C8 none (some "task-def") (some ())).1 (Or.inl rfl),
   (claim_C8 (some ()) (some "task-def") (some ())).2 () () rfl rfl⟩

/-- C9: when `game_args` is non-empty and every resolver call returns a
package name, the defensive post-loop branch raising the
can't-get-binary_name error is unreachable: `convert_cmd_args_list` never
returns that error.  (The proof needs only non-emptiness: in the embedding a
successful resolver call always carries a package name, and any failing call
aborts the loop before its end with a different error.) -/
theorem claim_C9 (resolver : Resolver G C E) (game_name : String) (game_args : List G)
    (mpc_party : MPCParty) (server_ips : Option (List String))
    (hne : game_args ≠ [])
    (htotal : ∀ (party : MPCParty) (ip : Option String) (g : G),
      ∃ p c, resolver game_name party ip g = Except.ok (p, c)) :
    (convert_cmd_args_list resolver game_name game_args mpc_party server_ips).1
      ≠ Except.error ConvertError.cantGetBinaryName := by
  unfold convert_cmd_args_list
  split
  · simp
  · split
    · simp
    · exact convertLoop_ne_cantGetBinaryName resolver game_name mpc_party server_ips
        game_args 0 none [] [] (Or.inr hne)

/-- C9 witness: the concrete one-container Server-party call with a total
resolver. -/
theorem claim_C9_witness :
    (convert_cmd_args_list rEcho "lift" ["a"] MPCParty.SERVER none).1
      ≠ Except.error ConvertError.cantGetBinaryName :=
  claim_C9 rEcho "lift" ["a"] MPCParty.SERVER none (by simp)
    (fun _party ip g => ⟨"pkg" ++ g, g ++ "@" ++ ip.getD "NONE", rfl⟩)

end MPC
